import Mathlib

set_option linter.unusedSectionVars false
set_option linter.unusedVariables false

/-!
# Verification of `std::threadsafe::map` (STL-Threadsafe)

A shallow embedding of `src/include/map-threadsafe.hpp`.  The class wraps a
`std::map<K,V>` (`internal_map`) together with one `std::shared_mutex`.

The store is modelled as a `List (K × V)` kept strictly sorted by key
(the representation invariant of `std::map`), captured by the predicate
`Threadsafe.Sorted`.  Each member function of the class is translated to a
pure Lean function: an out-parameter `V& output` becomes an explicit input
value that is returned (possibly updated) in the result, and a mutation of
`internal_map` becomes a returned store.

Which lock each member function constructs (`std::shared_lock` versus
`std::unique_lock`) is recorded verbatim from the source in `lockModeOf`.
-/

namespace Threadsafe

/-- The two acquisition modes of a `std::shared_mutex`. -/
inductive LockMode where
  | shared
  | exclusive
deriving DecidableEq, Repr

/-- The public member functions of `std::threadsafe::map`.  The two
`insertOrReplace` overloads are `insertOrReplaceOp` (key, value) and
`insertOrReplaceOldOp` (key, newValue, oldValue&); the two `replace`
overloads are `replaceOp` (key, value) and `replaceExpectedOp`
(key, oldValue, newValue). -/
inductive Op where
  | getOp
  | getTailOp
  | getHeadOp
  | getAndEraseHeadOp
  | eraseHeadOp
  | insertOp
  | eraseOp
  | sizeOp
  | sizeNoThreadSafeOp
  | emptyOp
  | containsOp
  | clearOp
  | putIfAbsentOp
  | getValuesOp
  | removeOp
  | replaceOp
  | insertOrReplaceOp
  | insertOrReplaceOldOp
  | replaceExpectedOp
deriving DecidableEq, Repr

/-- The lock each member function of `map` constructs on entry, read off
the source: `some .shared` for `std::shared_lock<std::shared_mutex>`,
`some .exclusive` for `std::unique_lock<std::shared_mutex>`, and `none`
for `sizeNoThreadSafe`, which takes no lock at all. -/
def lockModeOf : Op → Option LockMode
  | .getOp => some .shared
  | .getTailOp => some .shared
  | .getHeadOp => some .shared
  | .getAndEraseHeadOp => some .shared
  | .eraseHeadOp => some .shared
  | .insertOp => some .exclusive
  | .eraseOp => some .exclusive
  | .sizeOp => some .shared
  | .sizeNoThreadSafeOp => none
  | .emptyOp => some .shared
  | .containsOp => some .shared
  | .clearOp => some .exclusive
  | .putIfAbsentOp => some .exclusive
  | .getValuesOp => some .shared
  | .removeOp => some .exclusive
  | .replaceOp => some .exclusive
  | .insertOrReplaceOp => some .exclusive
  | .insertOrReplaceOldOp => some .exclusive
  | .replaceExpectedOp => some .exclusive

variable {K V : Type} [LinearOrder K] [DecidableEq V]

/-- The `std::map` representation invariant: entries strictly ascending
by key (hence keys are unique). -/
def Sorted (l : List (K × V)) : Prop :=
  l.Pairwise (fun a b => a.1 < b.1)

instance (l : List (K × V)) : Decidable (Sorted l) := by
  unfold Sorted; infer_instance

/-- `internal_map.find(key)`: the value stored at `key`, or `none` when the
lookup iterator equals `internal_map.end()`. -/
def find? : List (K × V) → K → Option V
  | [], _ => none
  | (k', v') :: rest, k => if k = k' then some v' else find? rest k

/-- `internal_map.insert(std::make_pair(key,value))`: insert at the sorted
position when the key is absent; second component is the `.second` of the
returned pair (`true` iff a fresh insertion happened). -/
def mapInsert : List (K × V) → K → V → List (K × V) × Bool
  | [], k, v => ([(k, v)], true)
  | (k', v') :: rest, k, v =>
    if k < k' then ((k, v) :: (k', v') :: rest, true)
    else if k = k' then ((k', v') :: rest, false)
    else
      let r := mapInsert rest k v
      ((k', v') :: r.1, r.2)

/-- `internal_map.erase(key)`: remove the entry with the given key, if any;
second component is the count of removed entries. -/
def mapEraseKey : List (K × V) → K → List (K × V) × Nat
  | [], _ => ([], 0)
  | (k', v') :: rest, k =>
    if k = k' then (rest, 1)
    else
      let r := mapEraseKey rest k
      ((k', v') :: r.1, r.2)

/-- `it->second = value` through a `find(key)` iterator: overwrite the value
stored at `key` in place (no effect when the key is absent). -/
def mapSet : List (K × V) → K → V → List (K × V)
  | [], _, _ => []
  | (k', v') :: rest, k, v =>
    if k = k' then (k', v) :: rest else (k', v') :: mapSet rest k v

/-- `bool get(const K& key, V& output)`: under a shared lock, look the key
up; on a miss return `false` and leave `output` untouched, on a hit copy
the value into `output` and return `true`. -/
def get (m : List (K × V)) (key : K) (output : V) : Bool × V :=
  match find? m key with
  | none => (false, output)
  | some v => (true, v)

/-- `bool getTail(V& output)`: under a shared lock, if the map is non-empty
copy `rbegin()->second` (the maximum-key value) into `output` and return
`true`; otherwise return `false` with `output` untouched. -/
def getTail (m : List (K × V)) (output : V) : Bool × V :=
  match m.getLast? with
  | some p => (true, p.2)
  | none => (false, output)

/-- `bool getHead(V& output)`: under a shared lock, if the map is non-empty
copy `begin()->second` (the minimum-key value) into `output` and return
`true`; otherwise return `false` with `output` untouched. -/
def getHead (m : List (K × V)) (output : V) : Bool × V :=
  match m with
  | [] => (false, output)
  | p :: _ => (true, p.2)

/-- `bool getAndEraseHead(V& output)`: if the map is non-empty copy
`begin()->second` into `output`, erase that entry and return `true`;
otherwise return `false` with `output` untouched.  Result is
(return value, output, resulting store).  NB: the source constructs a
`std::shared_lock` here (see `lockModeOf`). -/
def getAndEraseHead (m : List (K × V)) (output : V) : Bool × V × List (K × V) :=
  match m with
  | [] => (false, output, [])
  | p :: rest => (true, p.2, rest)

/-- `bool eraseHead()`: if the map is non-empty erase `begin()` and return
`true`, else return `false`.  NB: the source constructs a
`std::shared_lock` here (see `lockModeOf`). -/
def eraseHead (m : List (K × V)) : Bool × List (K × V) :=
  match m with
  | [] => (false, [])
  | _ :: rest => (true, rest)

/-- `bool insert(const K& key, V& value)`: under an exclusive lock, return
`internal_map.insert(make_pair(key,value)).second`. -/
def insert (m : List (K × V)) (key : K) (value : V) : Bool × List (K × V) :=
  let r := mapInsert m key value
  (r.2, r.1)

/-- `size_t erase(const K& key)`: under an exclusive lock, return
`internal_map.erase(key)` (the removed count). -/
def erase (m : List (K × V)) (key : K) : Nat × List (K × V) :=
  let r := mapEraseKey m key
  (r.2, r.1)

/-- `size_t size()`: under a shared lock, `internal_map.size()`. -/
def size (m : List (K × V)) : Nat :=
  m.length

/-- `size_t sizeNoThreadSafe()`: `internal_map.size()` with no lock. -/
def sizeNoThreadSafe (m : List (K × V)) : Nat :=
  m.length

/-- `bool empty()`: under a shared lock, `internal_map.empty()`. -/
def empty (m : List (K × V)) : Bool :=
  m.isEmpty

/-- `bool contains(const K& key)`: under a shared lock, look the key up and
return `it == internal_map.end()` — i.e. `true` when the key is ABSENT
(the boolean sense the source actually implements). -/
def contains (m : List (K × V)) (key : K) : Bool :=
  (find? m key).isNone

/-- `void clear()`: under an exclusive lock, `internal_map.clear()`. -/
def clear (_ : List (K × V)) : List (K × V) :=
  []

/-- `V putIfAbsent(const K& key, const V& value)`: under an exclusive lock,
if the key is absent insert `(key, value)` and return `value`; otherwise
return the stored value and leave the store alone.  Result is
(return value, resulting store). -/
def putIfAbsent (m : List (K × V)) (key : K) (value : V) : V × List (K × V) :=
  match find? m key with
  | none => (value, (mapInsert m key value).1)
  | some v => (v, m)

/-- The copy loop of `getValues`: `while (begin != end && it !=
internal_map.end()) { *begin = *it; it++; begin++; }`.  The destination
range is a list of its current slot contents; the result is the new
destination contents and how far the cursor advanced. -/
def getValuesAux : List (K × V) → List (K × V) → List (K × V) × Nat
  | [], _ => ([], 0)
  | d :: dRest, [] => (d :: dRest, 0)
  | _ :: dRest, e :: eRest =>
    let r := getValuesAux dRest eRest
    (e :: r.1, r.2 + 1)

/-- `Iterator getValues(Iterator begin, Iterator end)`: under a shared
lock, copy entries from `internal_map.begin()` into `[begin, end)` until
either range is exhausted, returning the advanced `begin` cursor.  Result
is (new destination contents, cursor offset past the last write). -/
def getValues (m : List (K × V)) (dest : List (K × V)) : List (K × V) × Nat :=
  getValuesAux dest m

/-- `bool remove(const K& key, const V& value)`: under an exclusive lock,
if the key is absent or its stored value differs from `value` return
`false`; otherwise erase the entry and return `true` (compare-and-delete).
Result is (return value, resulting store). -/
def remove (m : List (K × V)) (key : K) (value : V) : Bool × List (K × V) :=
  match find? m key with
  | none => (false, m)
  | some v => if v = value then (true, (mapEraseKey m key).1) else (false, m)

/-- `bool replace(const K& key, const V& value)`: under an exclusive lock,
if the key is present overwrite its value and return `true`; otherwise
return `false` (update-only, never an insert). -/
def replace (m : List (K × V)) (key : K) (value : V) : Bool × List (K × V) :=
  match find? m key with
  | none => (false, m)
  | some _ => (true, mapSet m key value)

/-- `bool insertOrReplace(const K& key, const V& value)`: under an
exclusive lock, if the key is present overwrite its value and return
`false`; otherwise insert and return the insertion's `.second`. -/
def insertOrReplace (m : List (K × V)) (key : K) (value : V) : Bool × List (K × V) :=
  match find? m key with
  | some _ => (false, mapSet m key value)
  | none => ((mapInsert m key value).2, (mapInsert m key value).1)

/-- `bool insertOrReplace(const K& key, const V& newValue, V& oldValue)`:
as `insertOrReplace`, but on the overwrite branch first copy the prior
value into `oldValue`.  Result is (return value, oldValue, store). -/
def insertOrReplaceOld (m : List (K × V)) (key : K) (newValue : V) (oldValue : V) :
    Bool × V × List (K × V) :=
  match find? m key with
  | some v => (false, v, mapSet m key newValue)
  | none => ((mapInsert m key newValue).2, oldValue, (mapInsert m key newValue).1)

/-- `bool replace(const K& key, V& oldValue, V& newValue)`: under an
exclusive lock, if the key is present AND its stored value equals
`oldValue`, overwrite with `newValue` and return `true`; otherwise return
`false` (compare-and-swap). -/
def replaceExpected (m : List (K × V)) (key : K) (oldValue newValue : V) :
    Bool × List (K × V) :=
  match find? m key with
  | some v => if v = oldValue then (true, mapSet m key newValue) else (false, m)
  | none => (false, m)

/-! ## Helper lemmas about the embedded `std::map` primitives -/

theorem find?_eq_none_iff (m : List (K × V)) (k : K) :
    find? m k = none ↔ k ∉ m.map Prod.fst := by
  induction m with
  | nil => simp [find?]
  | cons p rest ih =>
    obtain ⟨k', v'⟩ := p
    by_cases hk : k = k' <;> simp [find?, hk, ih]

theorem sorted_cons_lt {p : K × V} {rest : List (K × V)} (h : Sorted (p :: rest)) :
    ∀ q ∈ rest, p.1 < q.1 := by
  intro q hq
  exact (List.pairwise_cons.mp h).1 q hq

theorem sorted_tail {p : K × V} {rest : List (K × V)} (h : Sorted (p :: rest)) :
    Sorted rest :=
  (List.pairwise_cons.mp h).2

theorem find?_head_absent {p : K × V} {rest : List (K × V)}
    (h : Sorted (p :: rest)) : find? rest p.1 = none := by
  rw [find?_eq_none_iff]
  intro hmem
  obtain ⟨q, hq, hq1⟩ := List.mem_map.mp hmem
  exact absurd (hq1 ▸ sorted_cons_lt h q hq) (lt_irrefl _)

theorem find?_mapInsert_self {m : List (K × V)} {k : K} (v : V)
    (h : find? m k = none) : find? (mapInsert m k v).1 k = some v := by
  induction m with
  | nil => simp [mapInsert, find?]
  | cons p rest ih =>
    obtain ⟨k', v'⟩ := p
    rw [find?] at h
    by_cases hlt : k < k'
    · simp [mapInsert, hlt, find?]
    · have hne : ¬ k = k' := by
        intro he; rw [if_pos he] at h; exact Option.noConfusion h
      rw [if_neg hne] at h
      simp only [mapInsert, if_neg hlt, if_neg hne]
      rw [find?, if_neg hne]
      exact ih h

theorem find?_mapInsert_other {m : List (K × V)} {k k' : K} (v : V)
    (hne : k' ≠ k) : find? (mapInsert m k v).1 k' = find? m k' := by
  induction m with
  | nil => simp [mapInsert, find?, hne]
  | cons p rest ih =>
    obtain ⟨k'', v''⟩ := p
    by_cases hlt : k < k''
    · simp [mapInsert, hlt, find?, hne]
    · by_cases he : k = k''
      · simp [mapInsert, hlt, he]
      · simp only [mapInsert, if_neg hlt, if_neg he]
        by_cases h2 : k' = k''
        · simp [find?, h2]
        · simp [find?, h2, ih]

theorem mapInsert_snd_iff {m : List (K × V)} (hm : Sorted m) (k : K) (v : V) :
    (mapInsert m k v).2 = true ↔ find? m k = none := by
  induction m with
  | nil => simp [mapInsert, find?]
  | cons p rest ih =>
    obtain ⟨k', v'⟩ := p
    by_cases hlt : k < k'
    · have habs : find? rest k = none := by
        rw [find?_eq_none_iff]
        intro hmem
        obtain ⟨q, hq, hq1⟩ := List.mem_map.mp hmem
        have := sorted_cons_lt hm q hq
        exact absurd (lt_trans hlt (hq1 ▸ this)) (lt_irrefl _)
      have hne : ¬ k = k' := ne_of_lt hlt
      simp [mapInsert, hlt, find?, hne, habs]
    · by_cases he : k = k'
      · simp [mapInsert, hlt, he, find?]
      · simp only [mapInsert, if_neg hlt, if_neg he, find?]
        exact ih (sorted_tail hm)

theorem mem_keys_of_find?_eq_some {m : List (K × V)} {k : K} {w : V}
    (h : find? m k = some w) : k ∈ m.map Prod.fst := by
  by_contra habs
  rw [← find?_eq_none_iff] at habs
  rw [habs] at h
  exact Option.noConfusion h

theorem mapInsert_unchanged_of_present {m : List (K × V)} {k : K} {w : V} (v : V)
    (hm : Sorted m) (h : find? m k = some w) : (mapInsert m k v).1 = m := by
  induction m with
  | nil => simp [find?] at h
  | cons p rest ih =>
    obtain ⟨k', v'⟩ := p
    rw [find?] at h
    by_cases he : k = k'
    · have hlt : ¬ k < k' := by rw [he]; exact lt_irrefl k'
      simp [mapInsert, hlt, he]
    · rw [if_neg he] at h
      by_cases hlt : k < k'
      · exfalso
        obtain ⟨q, hq, hq1⟩ := List.mem_map.mp (mem_keys_of_find?_eq_some h)
        have := sorted_cons_lt hm q hq
        rw [hq1] at this
        exact absurd (lt_trans hlt this) (lt_irrefl _)
      · simp only [mapInsert, if_neg hlt, if_neg he]
        rw [ih (sorted_tail hm) h]

theorem find?_mapEraseKey_self {m : List (K × V)} (hm : Sorted m) (k : K) :
    find? (mapEraseKey m k).1 k = none := by
  induction m with
  | nil => simp [mapEraseKey, find?]
  | cons p rest ih =>
    obtain ⟨k', v'⟩ := p
    by_cases he : k = k'
    · subst he
      simpa [mapEraseKey] using find?_head_absent (p := (k, v')) hm
    · simp only [mapEraseKey, if_neg he, find?]
      exact ih (sorted_tail hm)

theorem find?_mapEraseKey_other {m : List (K × V)} {k k' : K}
    (hne : k' ≠ k) : find? (mapEraseKey m k).1 k' = find? m k' := by
  induction m with
  | nil => simp [mapEraseKey]
  | cons p rest ih =>
    obtain ⟨k'', v''⟩ := p
    by_cases he : k = k''
    · subst he
      simp [mapEraseKey, find?, fun h => hne (h : k' = k)]
    · simp only [mapEraseKey, if_neg he, find?]
      by_cases h2 : k' = k''
      · simp [h2]
      · simp [h2, ih]

theorem find?_mapSet_self {m : List (K × V)} {k : K} {w : V} (v : V)
    (h : find? m k = some w) : find? (mapSet m k v) k = some v := by
  induction m with
  | nil => simp [find?] at h
  | cons p rest ih =>
    obtain ⟨k', v'⟩ := p
    rw [find?] at h
    by_cases he : k = k'
    · simp [mapSet, he, find?]
    · rw [if_neg he] at h
      simp only [mapSet, if_neg he, find?]
      exact ih h

theorem find?_mapSet_other {m : List (K × V)} {k k' : K} (v : V)
    (hne : k' ≠ k) : find? (mapSet m k v) k' = find? m k' := by
  induction m with
  | nil => simp [mapSet]
  | cons p rest ih =>
    obtain ⟨k'', v''⟩ := p
    by_cases he : k = k''
    · subst he
      simp [mapSet, find?, fun h => hne (h : k' = k)]
    · simp only [mapSet, if_neg he, find?]
      by_cases h2 : k' = k''
      · simp [h2]
      · simp [h2, ih]

theorem getValuesAux_eq (dest entries : List (K × V)) :
    getValuesAux dest entries =
      (entries.take (min dest.length entries.length) ++
         dest.drop (min dest.length entries.length),
       min dest.length entries.length) := by
  induction dest generalizing entries with
  | nil => simp [getValuesAux]
  | cons d dRest ih =>
    cases entries with
    | nil => simp [getValuesAux]
    | cons e eRest =>
      simp [getValuesAux, ih eRest, Nat.succ_min_succ]

/-! ## The claims -/

/-- C1: the spec requires `getAndEraseHead` and `eraseHead` to acquire the
reader-writer lock in exclusive mode because they erase from the store, but
the source constructs a `std::shared_lock` (shared mode) in both member
functions, so the code contradicts the claim (and the spec's own locking
discipline, which the spec states explicitly). -/
theorem c1_headPop_lock_is_shared_not_exclusive :
    lockModeOf Op.getAndEraseHeadOp = some LockMode.shared ∧
    lockModeOf Op.eraseHeadOp = some LockMode.shared ∧
    lockModeOf Op.getAndEraseHeadOp ≠ some LockMode.exclusive ∧
    lockModeOf Op.eraseHeadOp ≠ some LockMode.exclusive := by
  decide

/-- C2: `contains k` returns `true` exactly when `k` is absent from the map
(the lookup iterator equals the end sentinel): the boolean sense is
inverted from what the name implies.  The map is left unchanged: `contains`
is a pure function of the store, returning no modified store. -/
theorem c2_contains_true_iff_absent (m : List (K × V)) (k : K) :
    contains m k = true ↔ k ∉ m.map Prod.fst := by
  rw [contains, Option.isNone_iff_eq_none, find?_eq_none_iff]

/-- C3: `insert k v` returns `true` exactly when `k` was absent; when `k`
was absent the new store maps `k` to `v`; when `k` was already present the
call returns `false` and the store (hence the existing value for `k`) is
completely unchanged. -/
theorem c3_insert_spec (m : List (K × V)) (k : K) (v : V) (hm : Sorted m) :
    ((insert m k v).1 = true ↔ find? m k = none) ∧
    (find? m k = none → find? (insert m k v).2 k = some v) ∧
    (∀ w, find? m k = some w → (insert m k v).1 = false ∧ (insert m k v).2 = m) := by
  refine ⟨?_, ?_, ?_⟩
  · simpa [insert] using mapInsert_snd_iff hm k v
  · intro h
    simpa [insert] using find?_mapInsert_self v h
  · intro w h
    have hiff := mapInsert_snd_iff hm k v
    constructor
    · simp only [insert]
      cases hb : (mapInsert m k v).2 with
      | false => rfl
      | true => rw [hiff.mp hb] at h; exact Option.noConfusion h
    · simpa [insert] using mapInsert_unchanged_of_present v hm h

/-- Witness for C3 at concrete inputs: fresh insert of (1, 10) into the
empty map succeeds, and a second `insert 1 20` returns `false` and leaves
the store — hence the value 10 — unchanged. -/
theorem c3_insert_spec_witness :
    (insert ([] : List (Nat × Nat)) 1 10).1 = true ∧
    find? (insert ([] : List (Nat × Nat)) 1 10).2 1 = some 10 ∧
    (insert [(1, 10)] 1 (20 : Nat)).1 = false ∧
    (insert [(1, 10)] 1 (20 : Nat)).2 = [(1, 10)] := by
  have h1 := c3_insert_spec ([] : List (Nat × Nat)) 1 10 (by decide)
  have h2 := c3_insert_spec [(1, 10)] 1 (20 : Nat) (by decide)
  refine ⟨h1.1.mpr (by decide), h1.2.1 (by decide), ?_, ?_⟩
  · exact (h2.2.2 10 (by decide)).1
  · exact (h2.2.2 10 (by decide)).2

/-- C4: when `k` is absent, `putIfAbsent k v` returns `v`, the new store
maps `k` to `v` and every other key is untouched; when `k` is present with
stored value `w`, the call returns the pair `(w, m)` — the existing value
`w` and the completely unchanged store.  The two branches are governed by
the mutually exclusive and exhaustive conditions `find? m k = none` and
`find? m k = some w`. -/
theorem c4_putIfAbsent_spec (m : List (K × V)) (k : K) (v : V) (hm : Sorted m) :
    (find? m k = none →
       (putIfAbsent m k v).1 = v ∧
       find? (putIfAbsent m k v).2 k = some v ∧
       (∀ k2, k2 ≠ k → find? (putIfAbsent m k v).2 k2 = find? m k2)) ∧
    (∀ w, find? m k = some w → putIfAbsent m k v = (w, m)) := by
  constructor
  · intro h
    refine ⟨?_, ?_, ?_⟩
    · simp [putIfAbsent, h]
    · simpa [putIfAbsent, h] using find?_mapInsert_self v h
    · intro k2 hk2
      simpa [putIfAbsent, h] using find?_mapInsert_other v hk2
  · intro w h
    simp [putIfAbsent, h]

/-- Witness for C4 at concrete inputs: `putIfAbsent 2 20` on a map without
key 2 inserts and returns 20; `putIfAbsent 1 99` on a map holding (1, 10)
returns 10 and leaves the store unchanged. -/
theorem c4_putIfAbsent_spec_witness :
    (putIfAbsent [(1, 10), (3, 30)] 2 (20 : Nat)).1 = 20 ∧
    find? (putIfAbsent [(1, 10), (3, 30)] 2 (20 : Nat)).2 2 = some 20 ∧
    find? (putIfAbsent [(1, 10), (3, 30)] 2 (20 : Nat)).2 3 = find? [(1, 10), (3, 30)] 3 ∧
    putIfAbsent [(1, 10)] 1 (99 : Nat) = (10, [(1, 10)]) := by
  have h1 := c4_putIfAbsent_spec [(1, 10), (3, 30)] 2 (20 : Nat) (by decide)
  have h2 := c4_putIfAbsent_spec [(1, 10)] 1 (99 : Nat) (by decide)
  refine ⟨(h1.1 (by decide)).1, (h1.1 (by decide)).2.1, ?_, h2.2 10 (by decide)⟩
  exact (h1.1 (by decide)).2.2 3 (by decide)

/-- C5: on a non-empty (sorted) store `p :: rest`, `getAndEraseHead`
returns `true`, copies the head value `p.2` into the output, and the
resulting store is exactly `rest` (every other entry intact), where `p`
carries the strictly minimal key; on the empty store it returns `false`,
leaves the output untouched and the store empty. -/
theorem c5_getAndEraseHead_spec (m : List (K × V)) (out : V) (hm : Sorted m) :
    (m = [] → getAndEraseHead m out = (false, out, [])) ∧
    (∀ p rest, m = p :: rest →
       getAndEraseHead m out = (true, p.2, rest) ∧ ∀ q ∈ rest, p.1 < q.1) := by
  constructor
  · intro h
    subst h
    rfl
  · intro p rest h
    subst h
    exact ⟨rfl, sorted_cons_lt hm⟩

/-- Witness for C5 at concrete inputs: from keys {1, 2, 3} one call returns
the value for key 1 and leaves exactly the entries for {2, 3}; on the empty
map it returns `false` and leaves the output and the map untouched. -/
theorem c5_getAndEraseHead_spec_witness :
    getAndEraseHead [(1, 10), (2, 20), (3, 30)] (99 : Nat) =
      (true, 10, [(2, 20), (3, 30)]) ∧
    getAndEraseHead ([] : List (Nat × Nat)) 99 = (false, 99, []) := by
  have h1 := c5_getAndEraseHead_spec [(1, 10), (2, 20), (3, 30)] (99 : Nat) (by decide)
  have h2 := c5_getAndEraseHead_spec ([] : List (Nat × Nat)) 99 (by decide)
  exact ⟨(h1.2 (1, 10) [(2, 20), (3, 30)] rfl).1, h2.1 rfl⟩

/-- C6: `remove k expected` returns `true` exactly when `k` is present with
stored value `expected`; in that case the entry for `k` is removed and
every other key's binding is intact; whenever it returns `false` the store
is completely unchanged. -/
theorem c6_remove_spec (m : List (K × V)) (k : K) (expected : V) (hm : Sorted m) :
    ((remove m k expected).1 = true ↔ find? m k = some expected) ∧
    (find? m k = some expected →
       find? (remove m k expected).2 k = none ∧
       (∀ k2, k2 ≠ k → find? (remove m k expected).2 k2 = find? m k2)) ∧
    ((remove m k expected).1 = false → (remove m k expected).2 = m) := by
  cases hfind : find? m k with
  | none =>
    refine ⟨by simp [remove, hfind], ?_, by simp [remove, hfind]⟩
    intro h
    exact Option.noConfusion h
  | some v =>
    by_cases he : v = expected
    · subst he
      refine ⟨by simp [remove, hfind], ?_, ?_⟩
      · intro _
        refine ⟨by simpa [remove, hfind] using find?_mapEraseKey_self hm k, ?_⟩
        intro k2 hk2
        simpa [remove, hfind] using find?_mapEraseKey_other hk2
      · intro hfalse
        simp [remove, hfind] at hfalse
    · refine ⟨?_, ?_, by simp [remove, hfind, he]⟩
      · simp [remove, hfind, he]
      · intro h
        exact absurd (Option.some.inj h) he

/-- Witness for C6 at concrete inputs: with key 1 mapped to 10,
`remove 1 77` (mismatch) returns `false` and leaves the entry intact;
`remove 1 10` returns `true` and afterwards the lookup of 1 is empty while
key 2 is untouched. -/
theorem c6_remove_spec_witness :
    (remove [(1, 10), (2, 20)] 1 (77 : Nat)).1 = false ∧
    (remove [(1, 10), (2, 20)] 1 (77 : Nat)).2 = [(1, 10), (2, 20)] ∧
    (remove [(1, 10), (2, 20)] 1 (10 : Nat)).1 = true ∧
    find? (remove [(1, 10), (2, 20)] 1 (10 : Nat)).2 1 = none ∧
    find? (remove [(1, 10), (2, 20)] 1 (10 : Nat)).2 2 = find? [(1, 10), (2, 20)] 2 := by
  have h1 := c6_remove_spec [(1, 10), (2, 20)] 1 (77 : Nat) (by decide)
  have h2 := c6_remove_spec [(1, 10), (2, 20)] 1 (10 : Nat) (by decide)
  refine ⟨?_, h1.2.2 ?_, h2.1.mpr (by decide), (h2.2.1 (by decide)).1,
    (h2.2.1 (by decide)).2 2 (by decide)⟩
  · cases hb : (remove [(1, 10), (2, 20)] 1 (77 : Nat)).1 with
    | false => rfl
    | true => exact absurd (h1.1.mp hb) (by decide)
  · cases hb : (remove [(1, 10), (2, 20)] 1 (77 : Nat)).1 with
    | false => rfl
    | true => exact absurd (h1.1.mp hb) (by decide)

/-- C7: the three-argument `replace k expected newV` (compare-and-swap)
returns `true` exactly when `k` is present with stored value `expected`;
in that case the store afterwards maps `k` to `newV` with every other key
untouched; whenever it returns `false` the store is completely
unchanged. -/
theorem c7_replaceExpected_spec (m : List (K × V)) (k : K) (expected newV : V)
    (hm : Sorted m) :
    ((replaceExpected m k expected newV).1 = true ↔ find? m k = some expected) ∧
    (find? m k = some expected →
       find? (replaceExpected m k expected newV).2 k = some newV ∧
       (∀ k2, k2 ≠ k →
         find? (replaceExpected m k expected newV).2 k2 = find? m k2)) ∧
    ((replaceExpected m k expected newV).1 = false →
       (replaceExpected m k expected newV).2 = m) := by
  cases hfind : find? m k with
  | none =>
    refine ⟨by simp [replaceExpected, hfind], ?_, by simp [replaceExpected, hfind]⟩
    intro h
    exact Option.noConfusion h
  | some v =>
    by_cases he : v = expected
    · subst he
      refine ⟨by simp [replaceExpected, hfind], ?_, ?_⟩
      · intro _
        refine ⟨by simpa [replaceExpected, hfind] using find?_mapSet_self newV hfind, ?_⟩
        intro k2 hk2
        simpa [replaceExpected, hfind] using find?_mapSet_other newV hk2
      · intro hfalse
        simp [replaceExpected, hfind] at hfalse
    · refine ⟨?_, ?_, by simp [replaceExpected, hfind, he]⟩
      · simp [replaceExpected, hfind, he]
      · intro h
        exact absurd (Option.some.inj h) he

/-- Witness for C7 at concrete inputs: with key 1 mapped to 10,
`replace 1 77 55` (mismatch) returns `false` and leaves the store
unchanged; `replace 1 10 55` returns `true` and afterwards key 1 maps to
55 while key 2 is untouched. -/
theorem c7_replaceExpected_spec_witness :
    (replaceExpected [(1, 10), (2, 20)] 1 (77 : Nat) 55).2 = [(1, 10), (2, 20)] ∧
    (replaceExpected [(1, 10), (2, 20)] 1 (10 : Nat) 55).1 = true ∧
    find? (replaceExpected [(1, 10), (2, 20)] 1 (10 : Nat) 55).2 1 = some 55 ∧
    find? (replaceExpected [(1, 10), (2, 20)] 1 (10 : Nat) 55).2 2 =
      find? [(1, 10), (2, 20)] 2 := by
  have h1 := c7_replaceExpected_spec [(1, 10), (2, 20)] 1 (77 : Nat) 55 (by decide)
  have h2 := c7_replaceExpected_spec [(1, 10), (2, 20)] 1 (10 : Nat) 55 (by decide)
  refine ⟨h1.2.2 ?_, h2.1.mpr (by decide), (h2.2.1 (by decide)).1,
    (h2.2.1 (by decide)).2 2 (by decide)⟩
  cases hb : (replaceExpected [(1, 10), (2, 20)] 1 (77 : Nat) 55).1 with
  | false => rfl
  | true => exact absurd (h1.1.mp hb) (by decide)

/-- C8: `insertOrReplace k v` always lands in exactly one of two modes:
when `k` is absent it returns `true` (fresh insert) and the new store maps
`k` to `v`; when `k` is present it returns `false` (overwrite) and the
store afterwards maps `k` to `v`; in both modes every other key's binding
is untouched. -/
theorem c8_insertOrReplace_spec (m : List (K × V)) (k : K) (v : V) (hm : Sorted m) :
    (find? m k = none →
       (insertOrReplace m k v).1 = true ∧
       find? (insertOrReplace m k v).2 k = some v) ∧
    (∀ w, find? m k = some w →
       (insertOrReplace m k v).1 = false ∧
       find? (insertOrReplace m k v).2 k = some v) ∧
    (∀ k2, k2 ≠ k → find? (insertOrReplace m k v).2 k2 = find? m k2) := by
  refine ⟨?_, ?_, ?_⟩
  · intro h
    constructor
    · simpa [insertOrReplace, h] using (mapInsert_snd_iff hm k v).mpr h
    · simpa [insertOrReplace, h] using find?_mapInsert_self v h
  · intro w h
    exact ⟨by simp [insertOrReplace, h], by
      simpa [insertOrReplace, h] using find?_mapSet_self v h⟩
  · intro k2 hk2
    cases hfind : find? m k with
    | none => simpa [insertOrReplace, hfind] using find?_mapInsert_other v hk2
    | some w => simpa [insertOrReplace, hfind] using find?_mapSet_other v hk2

/-- Witness for C8 at concrete inputs: on an absent key, `insertOrReplace
1 5` returns `true`; calling again on the resulting store with value 7
returns `false` and the lookup of key 1 then yields 7. -/
theorem c8_insertOrReplace_spec_witness :
    (insertOrReplace ([] : List (Nat × Nat)) 1 5).1 = true ∧
    find? (insertOrReplace ([] : List (Nat × Nat)) 1 5).2 1 = some 5 ∧
    (insertOrReplace [(1, 5)] 1 (7 : Nat)).1 = false ∧
    find? (insertOrReplace [(1, 5)] 1 (7 : Nat)).2 1 = some 7 := by
  have h1 := c8_insertOrReplace_spec ([] : List (Nat × Nat)) 1 5 (by decide)
  have h2 := c8_insertOrReplace_spec [(1, 5)] 1 (7 : Nat) (by decide)
  exact ⟨(h1.1 (by decide)).1, (h1.1 (by decide)).2,
    (h2.2.1 5 (by decide)).1, (h2.2.1 5 (by decide)).2⟩

/-- C9: `getValues` writes exactly `min C E` entries (destination capacity
`C = dest.length`, map size `E = m.length`): the advanced cursor sits
`min C E` past the start, the destination afterwards holds the first
`min C E` entries of the (sorted) map followed by its own untouched tail,
the copied entries are in strictly ascending key order, and the map itself
is unchanged (`getValues` is a pure function of the store, returning no
modified store). -/
theorem c9_getValues_spec (m dest : List (K × V)) (hm : Sorted m) :
    (getValues m dest).2 = min dest.length m.length ∧
    (getValues m dest).1 =
      m.take (min dest.length m.length) ++ dest.drop (min dest.length m.length) ∧
    Sorted (m.take (min dest.length m.length)) := by
  refine ⟨?_, ?_, ?_⟩
  · rw [getValues, getValuesAux_eq]
  · rw [getValues, getValuesAux_eq]
  · exact List.Pairwise.sublist (List.take_sublist _ _) hm

/-- Witness for C9 at concrete inputs: a map of three entries copied into a
destination of capacity two writes exactly the two smallest-key entries,
advances the cursor by two, and the copied entries are ascending. -/
theorem c9_getValues_spec_witness :
    (getValues [(1, 10), (2, 20), (3, 30)] [(0, 0), (0, 0)] : List (Nat × Nat) × Nat).2 = 2 ∧
    (getValues [(1, 10), (2, 20), (3, 30)] [(0, 0), (0, 0)] : List (Nat × Nat) × Nat).1 =
      [(1, 10), (2, 20)] := by
  have h := c9_getValues_spec [(1, 10), (2, 20), (3, 30)] [(0, 0), (0, 0)] (by decide)
  exact ⟨h.1, by rw [h.2.1]; rfl⟩

/-- C10: whenever `get`, `getHead`, `getTail` or `getAndEraseHead` returns
`false` (absent key or empty map), the caller-supplied output slot comes
back exactly as it went in: none of the miss paths writes to `output`. -/
theorem c10_output_frame (m : List (K × V)) (k : K) (out : V) :
    ((get m k out).1 = false → (get m k out).2 = out) ∧
    ((getHead m out).1 = false → (getHead m out).2 = out) ∧
    ((getTail m out).1 = false → (getTail m out).2 = out) ∧
    ((getAndEraseHead m out).1 = false → (getAndEraseHead m out).2.1 = out) := by
  refine ⟨?_, ?_, ?_, ?_⟩
  · cases hfind : find? m k with
    | none => intro _; simp [get, hfind]
    | some v => intro h; simp [get, hfind] at h
  · cases m with
    | nil => intro _; rfl
    | cons p rest => intro h; simp [getHead] at h
  · cases hlast : (m : List (K × V)).getLast? with
    | none => intro _; simp [getTail, hlast]
    | some p => intro h; simp [getTail, hlast] at h
  · cases m with
    | nil => intro _; rfl
    | cons p rest => intro h; simp [getAndEraseHead] at h

/-- Witness for C10 at concrete inputs: an absent key (for `get`) and the
empty map (for the other three) leave a pre-loaded output slot 42
untouched. -/
theorem c10_output_frame_witness :
    (get [(1, 10)] 5 (42 : Nat)).2 = 42 ∧
    (getHead ([] : List (Nat × Nat)) 42).2 = 42 ∧
    (getTail ([] : List (Nat × Nat)) 42).2 = 42 ∧
    (getAndEraseHead ([] : List (Nat × Nat)) 42).2.1 = 42 := by
  have h1 := c10_output_frame [(1, 10)] 5 (42 : Nat)
  have h2 := c10_output_frame ([] : List (Nat × Nat)) 5 42
  exact ⟨h1.1 (by decide), h2.2.1 (by decide), h2.2.2.1 (by decide),
    h2.2.2.2 (by decide)⟩

end Threadsafe
